import Mathlib

/-!
Shallow embedding of `scripts/debug-viewer.py` (Hebelki Debug Viewer).

Python strings are modelled as `List Char`.  The module embeds, from the
source: `strip_ansi` (regex `\x1b\[[0-9;]*m` substitution), the
classifier `classify_line`, the filter/insert/trim logic of
`append_line` over the tkinter text widget (modelled as a list of
inserted entries), the forwarding decision of the `tail_file` read loop,
and `copy_selection`.  Theorems about these definitions follow the
definitions.
-/

namespace Hebelki

/-- The character class `[0-9;]` of the ANSI pattern `ANSI_RE = \x1b\[[0-9;]*m`. -/
def isAnsiBody (c : Char) : Bool := c.isDigit || c = ';'

/-- Match of `ANSI_RE` anchored at the head of the list: if the list starts with
`ESC [ body* m` (`body` drawn from `[0-9;]`), return the remainder after the
match.  The regex body is greedy and `m` is not in `[0-9;]`, so the maximal
body run is the only candidate; `dropWhile` implements exactly that. -/
def ansiMatchRest (l : List Char) : Option (List Char) :=
  match l with
  | c1 :: c2 :: rest =>
    if c1 = '\x1b' ∧ c2 = '[' then
      match rest.dropWhile isAnsiBody with
      | m :: rest2 => if m = 'm' then some rest2 else none
      | [] => none
    else none
  | _ => none

/-- Fuelled scan implementing `ANSI_RE.sub('', text)`: at each position remove
the match starting there if any, otherwise keep the character and move on
(`re.sub` replaces non-overlapping matches left to right).  Any fuel at least
the length of the list gives the same result. -/
def stripAnsiGo : Nat → List Char → List Char
  | 0, l => l
  | fuel + 1, l =>
    match ansiMatchRest l with
    | some r => stripAnsiGo fuel r
    | none =>
      match l with
      | [] => []
      | c :: rest => c :: stripAnsiGo fuel rest

/-- `strip_ansi(text)` from the source: `ANSI_RE.sub('', text)`. -/
def strip_ansi (l : List Char) : List Char := stripAnsiGo l.length l

theorem dropWhile_length_le (p : Char → Bool) (l : List Char) :
    (l.dropWhile p).length ≤ l.length := by
  induction l with
  | nil => simp [List.dropWhile]
  | cons c rest ih =>
    by_cases h : p c
    · simpa [List.dropWhile, h] using Nat.le_succ_of_le ih
    · simp [List.dropWhile, h]

theorem ansiMatchRest_some_length {l r : List Char}
    (h : ansiMatchRest l = some r) : r.length + 3 ≤ l.length := by
  match l with
  | [] => simp [ansiMatchRest] at h
  | [c1] => simp [ansiMatchRest] at h
  | c1 :: c2 :: rest =>
    by_cases hc : c1 = '\x1b' ∧ c2 = '['
    · simp only [ansiMatchRest, if_pos hc] at h
      rcases hd : rest.dropWhile isAnsiBody with _ | ⟨m, rest2⟩
      · rw [hd] at h; exact absurd h (by simp)
      · rw [hd] at h
        dsimp only at h
        by_cases hm : m = 'm'
        · rw [if_pos hm] at h
          have hlen : rest2.length + 1 ≤ rest.length := by
            have := dropWhile_length_le isAnsiBody rest
            rw [hd] at this
            simpa using this
          cases h
          simp only [List.length_cons]
          omega
        · rw [if_neg hm] at h; exact absurd h (by simp)
    · simp [ansiMatchRest, if_neg hc] at h

theorem stripAnsiGo_fuel_eq (fuel : Nat) :
    ∀ l : List Char, l.length ≤ fuel → stripAnsiGo fuel l = strip_ansi l := by
  induction fuel using Nat.strong_induction_on with
  | _ fuel ih =>
    intro l hl
    match fuel with
    | 0 =>
      have hnil : l = [] := List.eq_nil_of_length_eq_zero (Nat.le_zero.mp hl)
      subst hnil; rfl
    | f + 1 =>
      match l with
      | [] => rfl
      | c :: rest =>
        rcases hm : ansiMatchRest (c :: rest) with _ | r
        · have h1 : stripAnsiGo (f + 1) (c :: rest) = c :: stripAnsiGo f rest := by
            simp [stripAnsiGo, hm]
          have h2 : strip_ansi (c :: rest) = c :: stripAnsiGo rest.length rest := by
            simp [strip_ansi, stripAnsiGo, hm]
          rw [h1, h2, ih f (Nat.lt_succ_self f) rest (by simpa using hl)]
          rw [ih rest.length (by simp at hl; omega) rest (le_refl _)]
        · have hrl := ansiMatchRest_some_length hm
          have h1 : stripAnsiGo (f + 1) (c :: rest) = stripAnsiGo f r := by
            simp [stripAnsiGo, hm]
          have h2 : strip_ansi (c :: rest) = stripAnsiGo rest.length r := by
            simp [strip_ansi, stripAnsiGo, hm]
          simp only [List.length_cons] at hl hrl
          rw [h1, h2, ih f (Nat.lt_succ_self f) r (by omega)]
          rw [ih rest.length (by omega) r (by omega)]

theorem strip_ansi_nil : strip_ansi [] = [] := rfl

theorem strip_ansi_of_match {l r : List Char} (h : ansiMatchRest l = some r) :
    strip_ansi l = strip_ansi r := by
  match l with
  | [] => simp [ansiMatchRest] at h
  | c :: rest =>
    have hrl := ansiMatchRest_some_length h
    simp only [List.length_cons] at hrl
    have h2 : strip_ansi (c :: rest) = stripAnsiGo rest.length r := by
      simp [strip_ansi, stripAnsiGo, h]
    rw [h2, stripAnsiGo_fuel_eq rest.length r (by omega)]

theorem strip_ansi_cons_of_none {c : Char} {rest : List Char}
    (h : ansiMatchRest (c :: rest) = none) :
    strip_ansi (c :: rest) = c :: strip_ansi rest := by
  simp [strip_ansi, stripAnsiGo, h]

theorem ansiMatchRest_of_head_ne {c : Char} {rest : List Char}
    (h : c ≠ '\x1b') : ansiMatchRest (c :: rest) = none := by
  match rest with
  | [] => rfl
  | c2 :: rest2 =>
    have : ¬ (c = '\x1b' ∧ c2 = '[') := fun hc => h hc.1
    simp [ansiMatchRest, this]

theorem strip_ansi_of_no_esc {l : List Char} (h : '\x1b' ∉ l) :
    strip_ansi l = l := by
  induction l with
  | nil => rfl
  | cons c rest ih =>
    have hc : c ≠ '\x1b' := fun hc => h (hc ▸ List.mem_cons_self c rest)
    rw [strip_ansi_cons_of_none (ansiMatchRest_of_head_ne hc)]
    rw [ih (fun hm => h (List.mem_cons_of_mem c hm))]

theorem strip_ansi_append_of_no_esc {a b : List Char} (h : '\x1b' ∉ a) :
    strip_ansi (a ++ b) = a ++ strip_ansi b := by
  induction a with
  | nil => simp
  | cons c rest ih =>
    have hc : c ≠ '\x1b' := fun hc => h (hc ▸ List.mem_cons_self c rest)
    rw [List.cons_append, strip_ansi_cons_of_none (ansiMatchRest_of_head_ne hc)]
    rw [ih (fun hm => h (List.mem_cons_of_mem c hm))]
    rfl

/-- A full match of `ANSI_RE`: `ESC [ body* m` with `body*` drawn from `[0-9;]`. -/
def IsAnsiSeq (q : List Char) : Prop :=
  ∃ body : List Char, (∀ c ∈ body, isAnsiBody c = true) ∧
    q = '\x1b' :: '[' :: (body ++ ['m'])

theorem dropWhile_body_append {body tail : List Char}
    (hb : ∀ c ∈ body, isAnsiBody c = true) :
    (body ++ 'm' :: tail).dropWhile isAnsiBody = 'm' :: tail := by
  induction body with
  | nil =>
    have hm : isAnsiBody 'm' = false := by decide
    simp [List.dropWhile, hm]
  | cons c rest ih =>
    have hc : isAnsiBody c = true := hb c (List.mem_cons_self c rest)
    simp only [List.cons_append, List.dropWhile, hc]
    exact ih (fun d hd => hb d (List.mem_cons_of_mem c hd))

theorem ansiMatchRest_of_seq {q b : List Char} (h : IsAnsiSeq q) :
    ansiMatchRest (q ++ b) = some b := by
  obtain ⟨body, hb, rfl⟩ := h
  have : ('\x1b' :: '[' :: (body ++ ['m'])) ++ b
      = '\x1b' :: '[' :: (body ++ 'm' :: b) := by simp
  rw [this]
  simp [ansiMatchRest, dropWhile_body_append hb]

theorem strip_ansi_seq_append {q b : List Char} (h : IsAnsiSeq q) :
    strip_ansi (q ++ b) = strip_ansi b :=
  strip_ansi_of_match (ansiMatchRest_of_seq h)

/-- `text.lower()`: per-character lowercasing; this agrees with Python
`str.lower` on ASCII text and on characters without case. -/
def lowerL (l : List Char) : List Char := l.map Char.toLower

/-- `k in l` for Python strings: `k` occurs as a contiguous substring of `l`. -/
def containsSub (l k : List Char) : Bool := decide (k <:+: l)

/-- `any(k in l for k in ks)`. -/
def containsAnyKw (l : List Char) (ks : List (List Char)) : Bool :=
  ks.any (containsSub l)

/-- Keyword list of the error rule in `classify_line`. -/
def errKeys : List (List Char) :=
  ["error".data, "err:".data, "failed".data, "exception".data,
   "traceback".data, "unhandled".data]

/-- Keyword list of the warning rule in `classify_line`. -/
def warnKeys : List (List Char) :=
  ["warn".data, "warning".data, "deprecated".data]

/-- Keyword list of the route rule in `classify_line`. -/
def routeKeys : List (List Char) :=
  ["get /".data, "post /".data, "patch /".data, "delete /".data, "put /".data]

/-- Keyword list of the success rule in `classify_line`. -/
def successKeys : List (List Char) :=
  ["ready".data, "compiled".data, "success".data, "✓".data, "✅".data]

/-- Keyword list of the info rule in `classify_line`. -/
def infoKeys : List (List Char) :=
  ["compiling".data, "building".data, "hmr".data]

/-- The tool rule test: `"[chatbot]" in lower or "[tool" in lower`. -/
def isToolMark (lower : List Char) : Bool :=
  containsSub lower "[chatbot]".data || containsSub lower "[tool".data

/-- `re.match(r'^\d{4}-\d{2}-\d{2}', line)`: the line starts with four digits,
a dash, two digits, a dash, two digits. -/
def startsWithDate (l : List Char) : Bool :=
  match l with
  | a :: b :: c :: d :: s1 :: e :: f :: s2 :: g :: k :: _ =>
    a.isDigit && b.isDigit && c.isDigit && d.isDigit && s1 = '-' &&
    e.isDigit && f.isDigit && s2 = '-' && g.isDigit && k.isDigit
  | _ => false

/-- The mutable state of a `DebugViewer` relevant to the claims: the filter
entry's text (`self.filter_var`), the text widget's inserted entries
(`self.text`, each entry a cleaned line with its tag), the current selection
(`tk.SEL`, absent when nothing is selected) and the system clipboard. -/
structure ViewerState where
  filter_var : List Char
  buf : List (List Char × String)
  selection : Option (List Char)
  clipboard : Option (List Char)

/-- `DebugViewer.classify_line(self, line, stream)`: stderr short-circuits to
`"error"`; otherwise the lowercased line is tested against the keyword rules
in source order, then the date rule against the original line; `""` means no
tag. -/
def classify_line (self : ViewerState) (line : List Char) (stream : String) :
    String :=
  if stream = "stderr" then "error"
  else
    let lower := lowerL line
    if containsAnyKw lower errKeys then "error"
    else if containsAnyKw lower warnKeys then "warn"
    else if isToolMark lower then "tool"
    else if containsAnyKw lower routeKeys then "route"
    else if containsAnyKw lower successKeys then "success"
    else if containsAnyKw lower infoKeys then "info"
    else if startsWithDate line then "dim"
    else ""

/-- `text.rstrip()`: remove trailing whitespace. -/
def rstripL (l : List Char) : List Char :=
  (l.reverse.dropWhile Char.isWhitespace).reverse

/-- `text.strip()`: remove leading and trailing whitespace. -/
def stripBoth (l : List Char) : List Char :=
  ((l.dropWhile Char.isWhitespace).reverse.dropWhile Char.isWhitespace).reverse

/-- The insert-and-trim block of `append_line`: insert the entry at the end,
then read the tkinter line count and delete leading lines past the cap.  With
`n` entries each inserted as `text + "\n"`, the widget's `index('end-1c')`
line number is `n + 1` because of the widget's permanent trailing newline, so
`line_count = n + 1`; `delete("1.0", f"{line_count - 5000}.0")` removes the
first `line_count - 5001` whole lines (a no-op bound when that is zero). -/
def insertAndTrim {α : Type} (buf : List α) (x : α) : List α :=
  let grown := buf ++ [x]
  let lineCount := grown.length + 1
  if lineCount > 5000 then grown.drop (lineCount - 5000 - 1) else grown

/-- `DebugViewer.append_line(self, line, stream)`: strip ANSI codes, drop the
line when an active filter is not a case-insensitive substring of the cleaned
line, otherwise classify and insert with trimming to the 5000-line cap. -/
def append_line (self : ViewerState) (line : List Char) (stream : String) :
    ViewerState :=
  let clean := strip_ansi line
  let filter_text := lowerL (stripBoth self.filter_var)
  if !filter_text.isEmpty && !containsSub (lowerL clean) filter_text then self
  else
    let tag := classify_line self clean stream
    { self with buf := insertAndTrim self.buf (clean, tag) }

/-- `DebugViewer.copy_selection(self)`: read the selection; with a selection
present, clear the clipboard and append the selected text to it; with no
selection, `text.get(SEL_FIRST, SEL_LAST)` raises `tk.TclError`, which is
caught and ignored (`pass`). -/
def copy_selection (self : ViewerState) : ViewerState :=
  match self.selection with
  | some selected => { self with clipboard := some selected }
  | none => self

/-- The forwarding decision of one `tail_file` read-loop iteration: `line =
f.readline()`; `if line:` forward `line.rstrip()` with the stream, else poll
again (`readline` returns the empty string only at end of file). -/
def tailForward (line : List Char) : Option (List Char) :=
  if line = [] then none else some (rstripL line)

/-- The lines a tailer hands to `append_line` for a given sequence of
`readline` results. -/
def tailProcess (reads : List (List Char)) : List (List Char) :=
  reads.filterMap tailForward

theorem insertAndTrim_eq_drop {α : Type} (buf : List α) (x : α) :
    insertAndTrim buf x = (buf ++ [x]).drop ((buf.length + 1) - 5000) := by
  simp only [insertAndTrim]
  split
  · next h =>
    have hidx : (buf ++ [x]).length + 1 - 5000 - 1 = buf.length + 1 - 5000 := by
      simp only [List.length_append, List.length_cons, List.length_nil]
      omega
    rw [hidx]
  · next h =>
    simp only [List.length_append, List.length_cons, List.length_nil] at h
    have hz : buf.length + 1 - 5000 = 0 := by omega
    rw [hz, List.drop_zero]

theorem foldl_insertAndTrim {α : Type} (ls : List α) :
    List.foldl insertAndTrim [] ls = ls.drop (ls.length - 5000) := by
  induction ls using List.reverseRecOn with
  | nil => rw [List.foldl_nil, List.drop_nil]
  | append_singleton ls x ih =>
    rw [List.foldl_append, List.foldl_cons, List.foldl_nil, ih,
      insertAndTrim_eq_drop]
    by_cases hn : ls.length ≤ 4999
    · have hd : ls.length - 5000 = 0 := by omega
      rw [hd, List.drop_zero]
      have hidx : (ls ++ [x]).length - 5000 = ls.length + 1 - 5000 := by
        simp only [List.length_append, List.length_cons, List.length_nil]
      rw [hidx]
    · have hlen : (ls.drop (ls.length - 5000)).length + 1 - 5000 = 1 := by
        rw [List.length_drop]; omega
      rw [hlen]
      have hone : 1 ≤ (ls.drop (ls.length - 5000)).length := by
        rw [List.length_drop]; omega
      rw [List.drop_append_of_le_length hone, List.drop_drop]
      have h2 : (ls ++ [x]).length - 5000 = ls.length + 1 - 5000 := by
        simp only [List.length_append, List.length_cons, List.length_nil]
      rw [h2, List.drop_append_of_le_length (by omega : ls.length + 1 - 5000 ≤ ls.length)]
      have h3 : ls.length - 5000 + 1 = ls.length + 1 - 5000 := by omega
      rw [h3]

theorem infix_map {k l : List Char} (f : Char → Char) (h : k <:+: l) :
    k.map f <:+: l.map f := by
  obtain ⟨s, t, rfl⟩ := h
  exact ⟨s.map f, t.map f, by simp⟩

/-- C1 counterexample: `strip_ansi` is not idempotent.  On
`"\x1b\x1b[m[0m"` the first pass removes the inner `ESC [ m` match,
which glues the leading `ESC` to `[0m` and creates a fresh match
`ESC [ 0 m` that only a second pass removes. -/
theorem strip_ansi_not_idempotent :
    strip_ansi (strip_ansi "\x1b\x1b[m[0m".data) ≠
      strip_ansi "\x1b\x1b[m[0m".data := by decide

/-- C1 (amended): `strip_ansi` changes nothing on text free of the escape
character, removes every well-formed `ESC [ digits/semicolons m` sequence
that follows escape-free text, and is idempotent on every input whose
stripped form is free of the escape character (full idempotence fails, see
the counterexample). -/
theorem strip_ansi_removal_and_conditional_idempotence :
    ∀ a q b l : List Char,
      ('\x1b' ∉ a → strip_ansi a = a) ∧
      ('\x1b' ∉ a → IsAnsiSeq q →
        strip_ansi (a ++ (q ++ b)) = a ++ strip_ansi b) ∧
      ('\x1b' ∉ strip_ansi l → strip_ansi (strip_ansi l) = strip_ansi l) := by
  intro a q b l
  refine ⟨strip_ansi_of_no_esc, fun ha hq => ?_,
    fun hl => strip_ansi_of_no_esc hl⟩
  rw [strip_ansi_append_of_no_esc ha, strip_ansi_seq_append hq]

/-- C1 witness: the amended theorem applied to concrete text: `"log: "` is
untouched, the sequence `"\x1b[31m"` is removed in front of `"red"`, and
stripping `"a\x1b[0mb"` (whose stripped form `"ab"` is escape-free) is
idempotent. -/
theorem strip_ansi_removal_witness :
    strip_ansi "log: ".data = "log: ".data ∧
    strip_ansi ("log: ".data ++ ("\x1b[31m".data ++ "red".data)) =
      "log: ".data ++ strip_ansi "red".data ∧
    strip_ansi (strip_ansi "a\x1b[0mb".data) = strip_ansi "a\x1b[0mb".data := by
  obtain ⟨h1, h2, h3⟩ := strip_ansi_removal_and_conditional_idempotence
    "log: ".data "\x1b[31m".data "red".data "a\x1b[0mb".data
  exact ⟨h1 (by decide), h2 (by decide) ⟨['3', '1'], by decide, by decide⟩,
    h3 (by decide)⟩

/-- C2: one insert-and-trim step always leaves at most 5000 entries and
only ever removes a block of oldest whole entries (the result is a suffix
of the buffer with the new entry appended); submitting 5001 lines into an
empty buffer leaves exactly the most recent 5000 in original order. -/
theorem display_buffer_cap :
    (∀ (buf : List (List Char × String)) (x : List Char × String),
        (insertAndTrim buf x).length ≤ 5000 ∧
        ∃ k, insertAndTrim buf x = (buf ++ [x]).drop k) ∧
    (∀ ls : List (List Char × String), ls.length = 5001 →
        List.foldl insertAndTrim [] ls = ls.drop 1 ∧
        (List.foldl insertAndTrim ([] : List (List Char × String)) ls).length
          = 5000) := by
  constructor
  · intro buf x
    constructor
    · rw [insertAndTrim_eq_drop, List.length_drop]
      simp only [List.length_append, List.length_cons, List.length_nil]
      omega
    · exact ⟨_, insertAndTrim_eq_drop buf x⟩
  · intro ls hls
    have h := foldl_insertAndTrim ls
    rw [hls] at h
    have h1 : (5001 : Nat) - 5000 = 1 := by omega
    rw [h1] at h
    refine ⟨h, ?_⟩
    rw [h, List.length_drop, hls]

/-- 5001 pairwise distinct entries used to exercise the display-buffer cap. -/
def capLines : List (List Char × String) :=
  (List.range 5001).map fun n => ([Char.ofNat n], "")

/-- C2 witness: submitting the 5001 distinct `capLines` into an empty buffer
leaves exactly the most recent 5000 of them. -/
theorem display_buffer_cap_witness :
    List.foldl insertAndTrim ([] : List (List Char × String)) capLines =
      capLines.drop 1 :=
  (display_buffer_cap.2 capLines (by simp [capLines])).1

/-- C3: a line arriving on stderr is classified `error` whatever its text;
the stderr test is the first rule of `classify_line` and short-circuits all
content rules. -/
theorem classify_stderr_always_error :
    ∀ (self : ViewerState) (line : List Char),
      classify_line self line "stderr" = "error" := by
  intro self line
  rfl

/-- C4: rule order decides ties: `"2024-01-01 starting up"` on stdout gets
`dim` from the date rule, while any stdout line that starts with a date and
also contains `"error"` gets `error`, because the error rule is tested
before the date rule. -/
theorem classify_priority_date_vs_error :
    ∀ self : ViewerState,
      classify_line self "2024-01-01 starting up".data "stdout" = "dim" ∧
      ∀ line : List Char, startsWithDate line = true →
        "error".data <:+: line →
        classify_line self line "stdout" = "error" := by
  intro self
  have hst : ∀ (l : List Char) (s : String),
      classify_line self l s = classify_line ⟨[], [], none, none⟩ l s :=
    fun _ _ => rfl
  constructor
  · rw [hst]; decide
  · intro line hdate herr
    have hmap : "error".data <:+: lowerL line := by
      have h2 := infix_map Char.toLower herr
      rw [show "error".data.map Char.toLower = "error".data from by decide] at h2
      exact h2
    have hcs : containsSub (lowerL line) "error".data = true :=
      decide_eq_true hmap
    have hany : containsAnyKw (lowerL line) errKeys = true := by
      simp [containsAnyKw, errKeys, hcs]
    simp [classify_line, hany]

/-- C4 witness: the theorem at the concrete lines of the claim: the
date-only line gets `dim`, a line that is date-prefixed and contains
`"error"` gets `error`. -/
theorem classify_priority_date_vs_error_witness :
    classify_line ⟨[], [], none, none⟩ "2024-01-01 starting up".data "stdout"
      = "dim" ∧
    classify_line ⟨[], [], none, none⟩ "2024-01-01 error".data "stdout"
      = "error" :=
  ⟨(classify_priority_date_vs_error ⟨[], [], none, none⟩).1,
   (classify_priority_date_vs_error ⟨[], [], none, none⟩).2
     "2024-01-01 error".data (by decide) (by decide)⟩

/-- C5: with a non-empty active filter, a submitted line is dropped (state
unchanged) exactly when the filter is not a case-insensitive substring of
the ANSI-stripped line, and otherwise the cleaned line is inserted into the
display buffer with its classification; nothing else of the state changes. -/
theorem filter_accepts_iff_substring :
    ∀ (self : ViewerState) (line : List Char) (stream : String),
      lowerL (stripBoth self.filter_var) ≠ [] →
      (containsSub (lowerL (strip_ansi line))
          (lowerL (stripBoth self.filter_var)) = false →
        append_line self line stream = self) ∧
      (containsSub (lowerL (strip_ansi line))
          (lowerL (stripBoth self.filter_var)) = true →
        (append_line self line stream).buf =
          insertAndTrim self.buf
            (strip_ansi line, classify_line self (strip_ansi line) stream) ∧
        (append_line self line stream).filter_var = self.filter_var ∧
        (append_line self line stream).selection = self.selection ∧
        (append_line self line stream).clipboard = self.clipboard) := by
  intro self line stream hft
  have hne : (lowerL (stripBoth self.filter_var)).isEmpty = false := by
    cases hfl : lowerL (stripBoth self.filter_var) with
    | nil => exact absurd hfl hft
    | cons c rest => rfl
  constructor
  · intro hno
    simp [append_line, hne, hno]
  · intro hyes
    simp [append_line, hne, hyes]

/-- The viewer state of the claim's concrete example: filter text `"foo"`,
empty buffer. -/
def fooState : ViewerState := ⟨"foo".data, [], none, none⟩

/-- C5 witness: with filter `"foo"`, the line `"bar appeared"` is dropped
and the line `"foobar appeared"` is accepted into the buffer. -/
theorem filter_accepts_iff_substring_witness :
    append_line fooState "bar appeared".data "stdout" = fooState ∧
    (append_line fooState "foobar appeared".data "stdout").buf =
      insertAndTrim fooState.buf
        (strip_ansi "foobar appeared".data,
          classify_line fooState (strip_ansi "foobar appeared".data)
            "stdout") :=
  ⟨(filter_accepts_iff_substring fooState "bar appeared".data "stdout"
      (by decide)).1 (by decide),
   ((filter_accepts_iff_substring fooState "foobar appeared".data "stdout"
      (by decide)).2 (by decide)).1⟩

/-- C6: a stdout line on which the error, warning and tool rules all fail
and whose lowercased text contains one of the route keywords (an HTTP
method followed by `" /"`-style path start) is classified `route`. -/
theorem classify_route_rule :
    ∀ (self : ViewerState) (line : List Char),
      containsAnyKw (lowerL line) errKeys = false →
      containsAnyKw (lowerL line) warnKeys = false →
      isToolMark (lowerL line) = false →
      containsAnyKw (lowerL line) routeKeys = true →
      classify_line self line "stdout" = "route" := by
  intro self line h1 h2 h3 h4
  simp [classify_line, h1, h2, h3, h4]

/-- C6 witness: `classify_line` maps `"GET /api/users 200"` on stdout to
`route`. -/
theorem classify_route_rule_witness :
    classify_line ⟨[], [], none, none⟩ "GET /api/users 200".data "stdout"
      = "route" :=
  classify_route_rule ⟨[], [], none, none⟩ "GET /api/users 200".data
    (by decide) (by decide) (by decide) (by decide)

/-- C7 counterexample: the claim says a read line is forwarded iff it is
non-empty after trimming, but the loop tests the raw `readline` result: a
blank line read as `"\n"` is forwarded (as the empty string) even though it
is empty after trimming. -/
theorem tail_forward_claim_fails_on_blank :
    ¬ ((tailForward "\n".data).isSome = true ↔ rstripL "\n".data ≠ []) := by
  decide

/-- C7 (amended): a read is forwarded iff the raw `readline` result is
non-empty (an empty result only signals end of file); what is forwarded is
the right-trimmed line, and over any sequence of reads the pipeline
receives exactly the right-trimmed forms of the non-empty reads, in
order. -/
theorem tail_forwards_nonempty_reads :
    ∀ (line : List Char) (reads : List (List Char)),
      ((tailForward line).isSome = true ↔ line ≠ []) ∧
      (line ≠ [] → tailForward line = some (rstripL line)) ∧
      tailProcess reads = (reads.filter (fun l => !l.isEmpty)).map rstripL := by
  intro line reads
  refine ⟨?_, ?_, ?_⟩
  · by_cases h : line = [] <;> simp [tailForward, h]
  · intro h
    simp [tailForward, h]
  · induction reads with
    | nil => rfl
    | cons r rest ih =>
      by_cases hr : r = []
      · subst hr
        simpa [tailProcess, tailForward] using ih
      · have hre : r.isEmpty = false := by
          cases r with
          | nil => exact absurd rfl hr
          | cons c cs => rfl
        simpa [tailProcess, tailForward, hr, hre] using ih

/-- C7 witness: the amended theorem at the concrete read `"ok\n"`: the
non-empty read is forwarded right-trimmed. -/
theorem tail_forwards_nonempty_reads_witness :
    tailForward "ok\n".data = some (rstripL "ok\n".data) :=
  (tail_forwards_nonempty_reads "ok\n".data []).2.1 (by decide)

/-- C8: classification is deterministic and reads no viewer state: two
calls of `classify_line` with the same line and stream agree whatever the
filter, buffer, selection or clipboard of the two states. -/
theorem classify_deterministic :
    ∀ (s1 s2 : ViewerState) (line : List Char) (stream : String),
      classify_line s1 line stream = classify_line s2 line stream := by
  intro s1 s2 line stream
  rfl

/-- C9: invoking the copy operation with no selection is a silent no-op:
the `tk.TclError` raised by reading the empty selection is caught, and the
whole state — buffer, filter, selection and clipboard — is unchanged. -/
theorem copy_empty_selection_noop :
    ∀ self : ViewerState, self.selection = none → copy_selection self = self := by
  intro self h
  simp [copy_selection, h]

/-- C9 witness: the theorem at a concrete state with empty selection. -/
theorem copy_empty_selection_noop_witness :
    copy_selection ⟨[], [], none, none⟩ = ⟨[], [], none, none⟩ :=
  copy_empty_selection_noop ⟨[], [], none, none⟩ rfl

/-- C10: route matching is an unanchored substring test: any stdout line on
which the error, warning and tool rules fail and whose lowercased text
contains one of the five method keywords anywhere — also inside a longer
word such as `"forget /tmp/x"` — is classified `route`. -/
theorem route_match_unanchored :
    ∀ (self : ViewerState) (line : List Char),
      containsAnyKw (lowerL line) errKeys = false →
      containsAnyKw (lowerL line) warnKeys = false →
      isToolMark (lowerL line) = false →
      ("get /".data <:+: lowerL line ∨ "post /".data <:+: lowerL line ∨
       "patch /".data <:+: lowerL line ∨ "delete /".data <:+: lowerL line ∨
       "put /".data <:+: lowerL line) →
      classify_line self line "stdout" = "route" := by
  intro self line h1 h2 h3 h4
  have hr : containsAnyKw (lowerL line) routeKeys = true := by
    rcases h4 with h | h | h | h | h <;>
      simp [containsAnyKw, routeKeys, containsSub, h]
  simp [classify_line, h1, h2, h3, hr]

/-- C10 witness: `"forget /tmp/x"` contains `"get /"` mid-word and is
classified `route`. -/
theorem route_match_unanchored_witness :
    classify_line ⟨[], [], none, none⟩ "forget /tmp/x".data "stdout"
      = "route" :=
  route_match_unanchored ⟨[], [], none, none⟩ "forget /tmp/x".data
    (by decide) (by decide) (by decide) (Or.inl (by decide))

end Hebelki
